import Mathlib

/-!
Verification of the fetch-reduce-join pipeline of `project_PDB/src/project_PDB/app.py`.

The program fetches paginated JSON from the World Bank API, reduces each
indicator series to the latest non-null observation per country, and
left-joins the result onto a country catalog.  We embed the data model and
the operations shallowly:

* a page response is either the well-formed two-element `[metadata, records]`
  envelope (carrying `metadata.total` and the record list) or any other
  shape (`bad`);
* the `while True:` pagination loops of `fetch_countries` (app.py lines
  19-30, which has no envelope-shape guard) and `fetch_indicator_latest`
  (lines 42-56, which breaks on a malformed envelope) are embedded as one
  fuel-indexed loop `wbLoop`, with `guard` selecting whether the
  `if not isinstance(j, list) or len(j) < 2: break` check is present;
* an uncaught Python exception is the `RunResult.error` outcome, and fuel
  exhaustion (`none`) witnesses that the loop is still running.
-/

/-- A parsed JSON response of one page.  `ok total records` is the
well-formed `[metadata, records]` envelope with `metadata.total = total`
(`j[0].get("total", 0)` reads 0 when the field is missing, which we fold
into `total`); `bad` is any response that does not have the two-element
list shape. -/
inductive PageResp (α : Type) where
  | ok (total : Nat) (records : List α)
  | bad
deriving DecidableEq

/-- Outcome of a pagination loop: the accumulated rows, or an uncaught
exception (e.g. `j[1]` raising on a malformed envelope). -/
inductive RunResult (α : Type) where
  | done (rows : List α)
  | error
deriving DecidableEq

/-- Whether a page response has the two-element `[metadata, records]` shape. -/
def PageResp.isOk : PageResp α → Bool
  | .ok _ _ => true
  | .bad => false

/-- The record list of a page response (empty for a malformed one). -/
def PageResp.recs : PageResp α → List α
  | .ok _ rs => rs
  | .bad => []

/-- The declared `metadata.total` of a page response (0 for a malformed one,
matching `j[0].get("total", 0)`). -/
def PageResp.total : PageResp α → Nat
  | .ok t _ => t
  | .bad => 0

/-- The shared pagination loop of `fetch_countries` and
`fetch_indicator_latest` (app.py lines 19-30 and 42-56).  `pages p` is the
parsed response the server returns for page number `p` (pages are numbered
from 1).  `guard = true` models `fetch_indicator_latest`, whose loop breaks
when the response does not have the `[metadata, records]` shape;
`guard = false` models `fetch_countries`, where the same response makes
`j[0].get`/`rows += j[1]` raise.  On page 1 the loop reads
`total = j[0].get("total", 0)`; every iteration appends `j[1]` to `rows`
and breaks when `len(rows) >= total`.  `fuel` bounds the number of
iterations we unfold; `none` means the loop is still running after `fuel`
iterations. -/
def wbLoop (guard : Bool) (pages : Nat → PageResp α) :
    Nat → Nat → List α → Nat → Option (RunResult α)
  | 0, _, _, _ => none
  | fuel + 1, p, acc, total =>
    match pages p with
    | .bad => if guard then some (.done acc) else some .error
    | .ok t recs =>
      let total' := if p = 1 then t else total
      let acc' := acc ++ recs
      if total' ≤ acc'.length then some (.done acc')
      else wbLoop guard pages fuel (p + 1) acc' total'

/-- The concatenation of the record lists of pages `1..k`. -/
def prefixRecs (pages : Nat → PageResp α) (k : Nat) : List α :=
  (List.range k).flatMap fun i => (pages (i + 1)).recs

theorem prefixRecs_zero (pages : Nat → PageResp α) : prefixRecs pages 0 = [] := rfl

theorem prefixRecs_succ (pages : Nat → PageResp α) (n : Nat) :
    prefixRecs pages (n + 1) = prefixRecs pages n ++ (pages (n + 1)).recs := by
  simp [prefixRecs, List.range_succ]

/-- Running the loop through pages `1..m`, all well-formed and none reaching
the declared total, leaves it at page `m + 1` with the records of pages
`1..m` accumulated and `total` fixed to the declared total of page 1. -/
theorem wbLoop_pass (g : Bool) (pages : Nat → PageResp α) :
    ∀ m fuel,
    (∀ i, i ≤ m → 1 ≤ i → (pages i).isOk = true) →
    (∀ j, j ≤ m → 1 ≤ j → (prefixRecs pages j).length < (pages 1).total) →
    wbLoop g pages (m + fuel) 1 [] 0 =
      wbLoop g pages fuel (m + 1) (prefixRecs pages m)
        (if m = 0 then 0 else (pages 1).total) := by
  intro m
  induction m with
  | zero =>
    intro fuel _ _
    simp [prefixRecs]
  | succ m ih =>
    intro fuel hok hcont
    have harith : m + 1 + fuel = m + (fuel + 1) := by omega
    rw [harith, ih (fuel + 1) (fun i hi h1i => hok i (by omega) h1i)
      (fun j hj h1j => hcont j (by omega) h1j)]
    have hok1 : (pages (m + 1)).isOk = true := hok (m + 1) le_rfl (by omega)
    cases hp : pages (m + 1) with
    | bad => rw [hp] at hok1; simp [PageResp.isOk] at hok1
    | ok t rs =>
      have hpre : prefixRecs pages (m + 1) = prefixRecs pages m ++ rs := by
        rw [prefixRecs_succ, hp]
        rfl
      have hlt : (prefixRecs pages (m + 1)).length < (pages 1).total :=
        hcont (m + 1) le_rfl (by omega)
      have htot : (if m + 1 = 1 then t else if m = 0 then 0 else (pages 1).total)
          = (pages 1).total := by
        by_cases hm : m = 0
        · subst hm
          simp only [Nat.zero_add] at hp ⊢
          simp [hp, PageResp.total]
        · have hne : m + 1 ≠ 1 := by omega
          simp [hne, hm]
      simp only [wbLoop, hp]
      rw [htot, ← hpre, if_neg (by omega)]
      simp

/-- C2.  For every sequence of page responses whose first page declares a
total record count T, the pagination loop (either guard variant, i.e. both
`fetch_countries` and `fetch_indicator_latest`) returns exactly the
concatenation of the record lists of the fetched pages `1..k` and stops
requesting further pages at the first page `k` at which the accumulated
record count reaches T, for every page size. -/
theorem C2_pagination_complete (g : Bool) (pages : Nat → PageResp α) (k fuel : Nat)
    (hk : 1 ≤ k)
    (hok : ∀ i, i ≤ k → 1 ≤ i → (pages i).isOk = true)
    (hstop : (pages 1).total ≤ (prefixRecs pages k).length)
    (hcont : ∀ j, j < k → 1 ≤ j → (prefixRecs pages j).length < (pages 1).total)
    (hfuel : k ≤ fuel) :
    wbLoop g pages fuel 1 [] 0 = some (.done (prefixRecs pages k)) := by
  obtain ⟨m, rfl⟩ : ∃ m, k = m + 1 := ⟨k - 1, by omega⟩
  obtain ⟨f, rfl⟩ : ∃ f, fuel = m + (f + 1) := ⟨fuel - m - 1, by omega⟩
  rw [wbLoop_pass g pages m (f + 1) (fun i hi h1i => hok i (by omega) h1i)
    (fun j hj h1j => hcont j (by omega) h1j)]
  have hok1 : (pages (m + 1)).isOk = true := hok (m + 1) le_rfl (by omega)
  cases hp : pages (m + 1) with
  | bad => rw [hp] at hok1; simp [PageResp.isOk] at hok1
  | ok t rs =>
    have hpre : prefixRecs pages (m + 1) = prefixRecs pages m ++ rs := by
      rw [prefixRecs_succ, hp]
      rfl
    have htot : (if m + 1 = 1 then t else if m = 0 then 0 else (pages 1).total)
        = (pages 1).total := by
      by_cases hm : m = 0
      · subst hm
        simp only [Nat.zero_add] at hp ⊢
        simp [hp, PageResp.total]
      · have hne : m + 1 ≠ 1 := by omega
        simp [hne, hm]
    simp only [wbLoop, hp]
    rw [htot, ← hpre, if_pos hstop]

/-- A concrete two-page server for the C2 instance. -/
def pagesW2 : Nat → PageResp Nat := fun p =>
  if p = 1 then .ok 5 [10, 20, 30] else if p = 2 then .ok 5 [40, 50] else .bad

theorem C2_pagination_complete_inst :
    wbLoop true pagesW2 2 1 [] 0 = some (RunResult.done [10, 20, 30, 40, 50]) := by
  rw [C2_pagination_complete true pagesW2 2 2 (by decide) (by decide) (by decide)
    (by decide) (by decide)]
  decide

/-- C3 counterexample.  In `fetch_countries` (no envelope-shape guard,
app.py lines 19-30) a malformed second page after one successful page makes
`rows += j[1]` raise: pagination ends in an uncaught exception, not a
normal return of the accumulated records. -/
def pagesC3 : Nat → PageResp Nat := fun p =>
  if p = 1 then .ok 10 [1, 2] else .bad

theorem C3_countries_malformed_raises :
    wbLoop false pagesC3 5 1 [] 0 = some RunResult.error := by decide

/-- C3 (amended).  In `fetch_indicator_latest` (whose loop checks
`isinstance(j, list) and len(j) >= 2`), a malformed page response after
`k ≥ 1` successful pages terminates pagination normally, returning exactly
the records accumulated over pages `1..k`.  `fetch_countries` lacks the
guard and raises instead (see the counterexample). -/
theorem C3_indicator_malformed_terminates (pages : Nat → PageResp α) (k fuel : Nat)
    (hk : 1 ≤ k)
    (hok : ∀ i, i ≤ k → 1 ≤ i → (pages i).isOk = true)
    (hbad : pages (k + 1) = .bad)
    (hcont : ∀ j, j ≤ k → 1 ≤ j → (prefixRecs pages j).length < (pages 1).total)
    (hfuel : k + 1 ≤ fuel) :
    wbLoop true pages fuel 1 [] 0 = some (.done (prefixRecs pages k)) := by
  obtain ⟨f, rfl⟩ : ∃ f, fuel = k + (f + 1) := ⟨fuel - k - 1, by omega⟩
  rw [wbLoop_pass true pages k (f + 1) hok hcont]
  simp [wbLoop, hbad]

/-- A concrete server whose third page is malformed, for the C3 instance. -/
def pagesW3 : Nat → PageResp Nat := fun p =>
  if p = 1 then .ok 10 [1, 2] else if p = 2 then .ok 10 [3] else .bad

theorem C3_indicator_malformed_terminates_inst :
    wbLoop true pagesW3 4 1 [] 0 = some (RunResult.done [1, 2, 3]) := by
  rw [C3_indicator_malformed_terminates pagesW3 2 4 (by decide) (by decide) (by decide)
    (by decide) (by decide)]
  decide

/-- The loop is still running (`none` = fuel exhausted mid-loop) after every
finite number of iterations. -/
def loopsForever (g : Bool) (pages : Nat → PageResp α) : Prop :=
  ∀ fuel, wbLoop g pages fuel 1 [] 0 = none

/-- A server that misreports `total = 1` while every page is well-formed
and delivers no records. -/
def pagesC4 : Nat → PageResp Nat := fun _ => .ok 1 []

/-- C4 counterexample.  With the declared total misreported as 1 and every
page well-formed but empty, neither pagination loop ever terminates: there
is no hard iteration ceiling in the code, so the bound of
`ceil(total / page_size)` iterations fails and the loop runs forever. -/
theorem C4_misreported_total_loops :
    loopsForever true pagesC4 ∧ loopsForever false pagesC4 := by
  have key : ∀ (g : Bool) (fuel p total : Nat), p = 1 ∨ total = 1 →
      wbLoop g pagesC4 fuel p [] total = none := by
    intro g fuel
    induction fuel with
    | zero => intro p total _; rfl
    | succ fuel ih =>
      intro p total hpt
      have htot : (if p = 1 then 1 else total) = 1 := by
        rcases hpt with h | h <;> simp [h]
      simp only [wbLoop, pagesC4]
      rw [htot]
      simpa using ih (p + 1) 1 (Or.inr rfl)
  exact ⟨fun fuel => key true fuel 1 0 (Or.inl rfl), fun fuel => key false fuel 1 0 (Or.inl rfl)⟩

/-- From page 2 onwards (declared total already fixed to `tot`): if every
page is well-formed and delivers at least `N` records, an iteration budget
covering `tot` suffices for the loop to finish normally. -/
theorem wbLoop_term_aux (g : Bool) (pages : Nat → PageResp α) (N : Nat)
    (hok : ∀ i, 1 ≤ i → (pages i).isOk = true ∧ N ≤ (pages i).recs.length) :
    ∀ fuel p acc tot, 2 ≤ p → tot ≤ acc.length + (fuel + 1) * N →
    ∃ rows, wbLoop g pages (fuel + 1) p acc tot = some (.done rows) := by
  intro fuel
  induction fuel with
  | zero =>
    intro p acc tot hp htot
    obtain ⟨hok1, hlen⟩ := hok p (by omega)
    cases hpg : pages p with
    | bad => rw [hpg] at hok1; simp [PageResp.isOk] at hok1
    | ok t rs =>
      have hrs : N ≤ rs.length := by
        rw [hpg] at hlen
        simpa [PageResp.recs] using hlen
      have hne : p ≠ 1 := by omega
      rw [Nat.one_mul] at htot
      have hstop : tot ≤ (acc ++ rs).length := by
        rw [List.length_append]
        omega
      refine ⟨acc ++ rs, ?_⟩
      simp only [wbLoop, hpg, hne, if_false, if_pos hstop]
  | succ fuel ih =>
    intro p acc tot hp htot
    obtain ⟨hok1, hlen⟩ := hok p (by omega)
    cases hpg : pages p with
    | bad => rw [hpg] at hok1; simp [PageResp.isOk] at hok1
    | ok t rs =>
      have hrs : N ≤ rs.length := by
        rw [hpg] at hlen
        simpa [PageResp.recs] using hlen
      have hne : p ≠ 1 := by omega
      by_cases hstop : tot ≤ (acc ++ rs).length
      · exact ⟨acc ++ rs, by simp only [wbLoop, hpg, hne, if_false, if_pos hstop]⟩
      · have hrec : tot ≤ (acc ++ rs).length + (fuel + 1) * N := by
          have hmul : (fuel + 1 + 1) * N = (fuel + 1) * N + N := Nat.succ_mul _ _
          rw [hmul] at htot
          rw [List.length_append]
          generalize (fuel + 1) * N = FN at htot ⊢
          omega
        obtain ⟨rows, hrows⟩ := ih (p + 1) (acc ++ rs) tot (by omega) hrec
        refine ⟨rows, ?_⟩
        simp only [wbLoop, hpg, hne, if_false, if_neg hstop]
        exact hrows

/-- C4 (amended).  If every page is well-formed and delivers at least `N`
records (the `per_page=N` contract when data remains), then any iteration
budget `fuel` with `total ≤ fuel * N` — in particular
`fuel = ceil(total / N)` — makes either pagination loop terminate
normally.  Without that hypothesis there is no guarantee: the code has no
iteration ceiling, and a misreported total loops forever (see the
counterexample). -/
theorem C4_bounded_termination (g : Bool) (pages : Nat → PageResp α) (N fuel : Nat)
    (hok : ∀ i, 1 ≤ i → (pages i).isOk = true ∧ N ≤ (pages i).recs.length)
    (hfuel : (pages 1).total ≤ fuel * N) (hf1 : 1 ≤ fuel) :
    ∃ rows, wbLoop g pages fuel 1 [] 0 = some (.done rows) := by
  obtain ⟨f, rfl⟩ : ∃ f, fuel = f + 1 := ⟨fuel - 1, by omega⟩
  obtain ⟨hok1, hlen1⟩ := hok 1 le_rfl
  cases hp : pages 1 with
  | bad => rw [hp] at hok1; simp [PageResp.isOk] at hok1
  | ok t rs =>
    have hrs : N ≤ rs.length := by
      rw [hp] at hlen1
      simpa [PageResp.recs] using hlen1
    have htot : t ≤ (f + 1) * N := by
      rw [hp] at hfuel
      simpa [PageResp.total] using hfuel
    by_cases hstop : t ≤ rs.length
    · refine ⟨rs, ?_⟩
      simp [wbLoop, hp, hstop]
    · cases f with
      | zero =>
        exfalso
        rw [Nat.one_mul] at htot
        omega
      | succ f =>
        have hrec : t ≤ (rs : List α).length + (f + 1) * N := by
          have hmul : (f + 1 + 1) * N = (f + 1) * N + N := Nat.succ_mul _ _
          rw [hmul] at htot
          generalize (f + 1) * N = FN at htot ⊢
          omega
        obtain ⟨rows, hrows⟩ := wbLoop_term_aux g pages N hok f 2 rs t
          (by omega) hrec
        refine ⟨rows, ?_⟩
        conv_lhs => rw [wbLoop]
        rw [hp]
        simp [hstop, hrows]

/-- A server every page of which is well-formed with 3 records, for the C4
instance: with declared total 7 and `N = 3`, ceil(7/3) = 3 iterations
suffice. -/
def pagesW4 : Nat → PageResp Nat := fun _ => .ok 7 [1, 2, 3]

theorem C4_bounded_termination_inst :
    ∃ rows, wbLoop true pagesW4 3 1 [] 0 = some (RunResult.done rows) :=
  C4_bounded_termination true pagesW4 3 3
    (fun i _ => ⟨rfl, by simp [pagesW4, PageResp.recs]⟩)
    (by decide) (by decide)

/-- A raw observation record as delivered by the indicator endpoint
(`{countryiso3code, date, value}`); any field may be null.  `date` holds
the already-parsed integer year (`int(r.get("date"))`), with `none`
covering both a null and an empty date string (both falsy in
`... if r.get("date") else None`). -/
structure ObsRec where
  countryiso3code : Option String
  date : Option Int
  value : Option ℚ
deriving DecidableEq

/-- A row of the observations DataFrame built in `fetch_indicator_latest`
(app.py lines 58-62): columns `iso3`, `year`, `value`. -/
structure ObsRow where
  iso3 : String
  year : Option Int
  value : Option ℚ
deriving DecidableEq

/-- The dict comprehension body: `{"iso3": r.get("countryiso3code"),
"year": int(r.get("date")) if r.get("date") else None,
"value": r.get("value")}`. -/
def toRow (o : ObsRec) : ObsRow :=
  ⟨o.countryiso3code.getD "", o.date, o.value⟩

/-- The guarded comprehension `[{...} for r in rows if r and
r.get("countryiso3code")]` (app.py lines 58-62): records that are null, or
whose `countryiso3code` is missing, null or the empty string (all falsy),
are discarded. -/
def survivors (recs : List (Option ObsRec)) : List ObsRow :=
  recs.filterMap fun r =>
    match r with
    | none => none
    | some o =>
      match o.countryiso3code with
      | none => none
      | some s => if s = "" then none else some (toRow o)

/-- Ordering of the `year` sort key, descending (`ascending=False`), with a
null year last (pandas sorts NaN last regardless of direction). -/
def YGE : Option Int → Option Int → Prop
  | some a, some b => b ≤ a
  | some _, none => True
  | none, some _ => False
  | none, none => True

instance instDecYGE : DecidableRel YGE := fun a b =>
  match a, b with
  | some x, some y => inferInstanceAs (Decidable (y ≤ x))
  | some _, none => Decidable.isTrue trivial
  | none, some _ => Decidable.isFalse fun h => h
  | none, none => Decidable.isTrue trivial

theorem YGE_refl (a : Option Int) : YGE a a := by
  cases a <;> simp [YGE]

theorem YGE_total (a b : Option Int) : YGE a b ∨ YGE b a := by
  cases a <;> cases b <;> simp [YGE]
  exact le_total _ _

theorem YGE_trans (a b c : Option Int) : YGE a b → YGE b c → YGE a c := by
  cases a <;> cases b <;> cases c <;> simp [YGE] <;> omega

/-- Strict lexicographic comparison of character lists by code point —
the order in which pandas sorts Python strings. -/
def charsLT : List Char → List Char → Bool
  | [], [] => false
  | [], _ :: _ => true
  | _ :: _, [] => false
  | a :: as, b :: bs => if a = b then charsLT as bs else decide (a.val.toNat < b.val.toNat)

/-- Strict lexicographic comparison of strings by code point. -/
def strLT (a b : String) : Bool := charsLT a.data b.data

theorem charsLT_irrefl : ∀ as, charsLT as as = false := by
  intro as
  induction as with
  | nil => rfl
  | cons a as ih => simp [charsLT, ih]

theorem charsLT_trans : ∀ as bs cs, charsLT as bs = true → charsLT bs cs = true →
    charsLT as cs = true := by
  intro as
  induction as with
  | nil =>
    intro bs cs h1 h2
    cases bs with
    | nil => exact absurd h1 (by simp [charsLT])
    | cons b bs =>
      cases cs with
      | nil => exact absurd h2 (by simp [charsLT])
      | cons c cs => rfl
  | cons a as ih =>
    intro bs cs h1 h2
    cases bs with
    | nil => exact absurd h1 (by simp [charsLT])
    | cons b bs =>
      cases cs with
      | nil => exact absurd h2 (by simp [charsLT])
      | cons c cs =>
        by_cases hab : a = b
        · subst hab
          rw [charsLT, if_pos rfl] at h1
          by_cases hac : a = c
          · subst hac
            rw [charsLT, if_pos rfl] at h2 ⊢
            exact ih bs cs h1 h2
          · rw [charsLT, if_neg hac] at h2 ⊢
            exact h2
        · rw [charsLT, if_neg hab] at h1
          have hvab : a.val.toNat < b.val.toNat := of_decide_eq_true h1
          by_cases hbc : b = c
          · subst hbc
            have hac : a ≠ b := hab
            rw [charsLT, if_neg hac]
            exact decide_eq_true hvab
          · rw [charsLT, if_neg hbc] at h2
            have hvbc : b.val.toNat < c.val.toNat := of_decide_eq_true h2
            have hvac : a.val.toNat < c.val.toNat := lt_trans hvab hvbc
            have hac : a ≠ c := fun h => by
              subst h
              exact absurd hvac (lt_irrefl _)
            rw [charsLT, if_neg hac]
            exact decide_eq_true hvac

theorem charsLT_trichotomy : ∀ as bs, charsLT as bs = true ∨ as = bs ∨
    charsLT bs as = true := by
  intro as
  induction as with
  | nil =>
    intro bs
    cases bs with
    | nil => exact Or.inr (Or.inl rfl)
    | cons b bs => exact Or.inl rfl
  | cons a as ih =>
    intro bs
    cases bs with
    | nil => exact Or.inr (Or.inr rfl)
    | cons b bs =>
      by_cases hab : a = b
      · subst hab
        rcases ih bs with h | h | h
        · exact Or.inl (by rw [charsLT, if_pos rfl]; exact h)
        · exact Or.inr (Or.inl (by rw [h]))
        · exact Or.inr (Or.inr (by rw [charsLT, if_pos rfl]; exact h))
      · rcases lt_trichotomy a.val.toNat b.val.toNat with h | h | h
        · exact Or.inl (by rw [charsLT, if_neg hab]; exact decide_eq_true h)
        · exact absurd (Char.ext (UInt32.ext h)) hab
        · refine Or.inr (Or.inr ?_)
          rw [charsLT, if_neg (Ne.symm hab)]
          exact decide_eq_true h

theorem strLT_irrefl (a : String) : strLT a a = false := charsLT_irrefl a.data

theorem strLT_trans (a b c : String) : strLT a b = true → strLT b c = true →
    strLT a c = true := charsLT_trans a.data b.data c.data

theorem strLT_trichotomy (a b : String) : strLT a b = true ∨ a = b ∨
    strLT b a = true := by
  rcases charsLT_trichotomy a.data b.data with h | h | h
  · exact Or.inl h
  · exact Or.inr (Or.inl (String.ext h))
  · exact Or.inr (Or.inr h)

/-- The row order of `df.sort_values(["iso3","year"],
ascending=[True, False])`: primary key `iso3` ascending (lexicographic by
code point, as pandas compares Python strings), secondary key `year`
descending (nulls last). -/
def RLE (a b : ObsRow) : Prop :=
  strLT a.iso3 b.iso3 = true ∨ (a.iso3 = b.iso3 ∧ YGE a.year b.year)

instance instDecRLE : DecidableRel RLE := fun a b =>
  inferInstanceAs (Decidable (_ ∨ _))

instance instTotalRLE : IsTotal ObsRow RLE := by
  constructor
  intro a b
  rcases strLT_trichotomy a.iso3 b.iso3 with h | h | h
  · exact Or.inl (Or.inl h)
  · rcases YGE_total a.year b.year with hy | hy
    · exact Or.inl (Or.inr ⟨h, hy⟩)
    · exact Or.inr (Or.inr ⟨h.symm, hy⟩)
  · exact Or.inr (Or.inl h)

instance instTransRLE : IsTrans ObsRow RLE := by
  constructor
  intro a b c hab hbc
  rcases hab with h1 | ⟨e1, y1⟩
  · rcases hbc with h2 | ⟨e2, _⟩
    · exact Or.inl (strLT_trans _ _ _ h1 h2)
    · exact Or.inl (by rw [← e2]; exact h1)
  · rcases hbc with h2 | ⟨e2, y2⟩
    · exact Or.inl (by rw [e1]; exact h2)
    · exact Or.inr ⟨e1.trans e2, YGE_trans _ _ _ y1 y2⟩

/-- Column filter `.dropna(subset=["value"])`. -/
def dropNullValue (rows : List ObsRow) : List ObsRow :=
  rows.filter fun r => r.value.isSome

/-- The group keys of `.groupby("iso3", as_index=False)`: the distinct
`iso3` values, in ascending order (pandas sorts group keys; the input is
already iso3-sorted here, so first-occurrence dedup yields them sorted). -/
def groupKeys (rows : List ObsRow) : List String :=
  (rows.map fun r => r.iso3).dedup

/-- The rows of one `iso3` group, in frame order. -/
def keyGroup (rows : List ObsRow) (k : String) : List ObsRow :=
  rows.filter fun r => decide (r.iso3 = k)

/-- The output row of `.first()` for group `k`: per column, the first
non-null entry of the group. -/
def mkRow (rows : List ObsRow) (k : String) : ObsRow :=
  ⟨k, ((keyGroup rows k).filterMap fun r => r.year).head?,
    ((keyGroup rows k).filterMap fun r => r.value).head?⟩

/-- Group reduction `.groupby("iso3", as_index=False).first()`. -/
def groupFirsts (rows : List ObsRow) : List ObsRow :=
  (groupKeys rows).map (mkRow rows)

/-- The reduction tail of `fetch_indicator_latest` (app.py lines 58-66):
build the DataFrame from the surviving records, sort by `iso3` ascending /
`year` descending, drop null values, take the first row per `iso3` group.
When no record survives, `pd.DataFrame([])` has no columns and
`sort_values(["iso3","year"])` raises a `KeyError`, modelled as
`Except.error ()`. -/
def fetch_indicator_reduce (recs : List (Option ObsRec)) : Except Unit (List ObsRow) :=
  let rows := survivors recs
  if rows.isEmpty then .error ()
  else .ok (groupFirsts (dropNullValue (List.insertionSort RLE rows)))

/-- Function `fetch_indicator_latest` in full (app.py lines 40-66): paginate with
the envelope guard, then reduce. -/
def fetch_indicator_latest (pages : Nat → PageResp (Option ObsRec)) (fuel : Nat) :
    Option (Except Unit (List ObsRow)) :=
  match wbLoop true pages fuel 1 [] 0 with
  | none => none
  | some .error => some (.error ())
  | some (.done recs) => some (fetch_indicator_reduce recs)

/-- The records of `recs` that survive the key filter, carry entity key `k`,
and have a non-null value: the candidates for the reduced row of `k`. -/
def validFor (recs : List (Option ObsRec)) (k : String) : List ObsRow :=
  (survivors recs).filter fun r => decide (r.iso3 = k) && r.value.isSome

theorem keyGroup_keys (rows : List ObsRow) (k : String) :
    ∀ x ∈ keyGroup rows k, x.iso3 = k := by
  intro x hx
  have := List.of_mem_filter hx
  simpa using this

theorem keyGroup_pairwise (rows : List ObsRow) (k : String)
    (hs : List.Pairwise RLE rows) : List.Pairwise RLE (keyGroup rows k) :=
  List.Pairwise.sublist (List.filter_sublist rows) hs

/-- In a sorted frame, the first row of a key group has the greatest year
of the group (nulls counting as least). -/
theorem keyGroup_head_max (rows : List ObsRow) (k : String) (h : ObsRow) (tl : List ObsRow)
    (hg : keyGroup rows k = h :: tl) (hs : List.Pairwise RLE rows) :
    ∀ x ∈ keyGroup rows k, YGE h.year x.year := by
  intro x hx
  rw [hg] at hx
  rcases List.mem_cons.mp hx with rfl | hx
  · exact YGE_refl _
  · have hpair := keyGroup_pairwise rows k hs
    rw [hg] at hpair
    have hrel := (List.pairwise_cons.mp hpair).1 x hx
    have hhk : h.iso3 = k :=
      keyGroup_keys rows k h (by rw [hg]; exact List.mem_cons_self _ _)
    have hxk : x.iso3 = k :=
      keyGroup_keys rows k x (by rw [hg]; exact List.mem_cons_of_mem _ hx)
    rcases hrel with hlt | ⟨_, hy⟩
    · rw [hhk, hxk] at hlt
      rw [strLT_irrefl] at hlt
      exact absurd hlt (by simp)
    · exact hy

/-- In a sorted frame, `.first()` on the group of key `k` returns exactly
the fields of the first row of the group (pandas takes the first non-null entry
per column, but the sort places null years last, so both `year` and
`value` come from the head row). -/
theorem mkRow_spec (rows : List ObsRow) (k : String) (h : ObsRow) (tl : List ObsRow)
    (hg : keyGroup rows k = h :: tl) (hs : List.Pairwise RLE rows)
    (hv : h.value.isSome = true) :
    mkRow rows k = ⟨k, h.year, h.value⟩ := by
  obtain ⟨v, hvv⟩ := Option.isSome_iff_exists.mp hv
  have hval : ((h :: tl).filterMap fun r => r.value).head? = h.value := by
    simp [List.filterMap_cons, hvv]
  have hyear : ((h :: tl).filterMap fun r => r.year).head? = h.year := by
    cases hy : h.year with
    | some y => simp [List.filterMap_cons, hy]
    | none =>
      have htl : ∀ x ∈ tl, x.year = none := by
        intro x hx
        have hmax := keyGroup_head_max rows k h tl hg hs x
          (by rw [hg]; exact List.mem_cons_of_mem _ hx)
        rw [hy] at hmax
        cases hxy : x.year with
        | none => rfl
        | some z =>
          rw [hxy] at hmax
          exact absurd hmax (by simp [YGE])
      simp only [List.filterMap_cons, hy]
      rw [List.head?_eq_none_iff]
      exact List.filterMap_eq_nil_iff.mpr htl
  unfold mkRow
  rw [hg, hval, hyear]

/-- The post-dropna group of key `k` is, up to the permutation of the sort,
exactly the surviving input records with key `k` and a non-null value. -/
theorem keyGroup_perm_validFor (recs : List (Option ObsRec)) (k : String) :
    (keyGroup (dropNullValue (List.insertionSort RLE (survivors recs))) k).Perm
      (validFor recs k) := by
  unfold keyGroup dropNullValue validFor
  rw [List.filter_filter]
  exact (List.perm_insertionSort RLE (survivors recs)).filter _

theorem mem_groupKeys_iff (rows : List ObsRow) (k : String) :
    k ∈ groupKeys rows ↔ keyGroup rows k ≠ [] := by
  unfold groupKeys keyGroup
  rw [List.mem_dedup, List.mem_map]
  constructor
  · rintro ⟨r, hr, rfl⟩ hnil
    have hmem : r ∈ List.filter (fun x => decide (x.iso3 = r.iso3)) rows := by
      rw [List.mem_filter]
      exact ⟨hr, by simp⟩
    rw [hnil] at hmem
    exact List.not_mem_nil r hmem
  · intro hne
    rcases List.exists_mem_of_ne_nil _ hne with ⟨r, hr⟩
    rw [List.mem_filter] at hr
    exact ⟨r, hr.1, by simpa using hr.2⟩

theorem groupKeys_nodup (rows : List ObsRow) : (groupKeys rows).Nodup :=
  List.nodup_dedup _

theorem length_filter_eq_key (l : List String) (hl : l.Nodup) (k : String) :
    (l.filter fun x => decide (x = k)).length = if k ∈ l then 1 else 0 := by
  induction l with
  | nil => simp
  | cons a t ih =>
    rw [List.nodup_cons] at hl
    by_cases hak : a = k
    · subst hak
      have ht : List.filter (fun x => decide (x = a)) t = [] := by
        rw [List.filter_eq_nil_iff]
        intro x hx
        simp only [decide_eq_true_eq]
        intro hxa
        exact hl.1 (hxa ▸ hx)
      simp [List.filter_cons, ht]
    · simp [List.filter_cons, hak, ih hl.2, List.mem_cons, Ne.symm hak]

/-- C1.  The Series Reducer: for every list of raw observation records, the
reduced frame has exactly one row for entity key `k` when some surviving
record for `k` has a non-null value and none otherwise; and that row is one
of those records — its value is non-null, it appears among the surviving
input records for `k`, and its period (year) is maximal among all surviving
records for `k` with a non-null value. -/
theorem C1_series_reducer_latest (recs : List (Option ObsRec)) (out : List ObsRow)
    (hout : fetch_indicator_reduce recs = .ok out) (k : String) :
    ((out.filter fun r => decide (r.iso3 = k)).length
        = if validFor recs k = [] then 0 else 1)
    ∧ ∀ row ∈ out, row.iso3 = k →
        row.value.isSome = true
        ∧ row ∈ validFor recs k
        ∧ ∀ r ∈ validFor recs k, YGE row.year r.year := by
  simp only [fetch_indicator_reduce] at hout
  by_cases hemp : (survivors recs).isEmpty
  · rw [if_pos hemp] at hout
    exact absurd hout (by simp)
  · rw [if_neg hemp] at hout
    simp only [Except.ok.injEq] at hout
    subst hout
    have hsort : List.Sorted RLE (List.insertionSort RLE (survivors recs)) :=
      List.sorted_insertionSort RLE (survivors recs)
    have hkeptpair :
        List.Pairwise RLE (dropNullValue (List.insertionSort RLE (survivors recs))) :=
      List.Pairwise.sublist (List.filter_sublist _) hsort
    have hkeptsome :
        ∀ r ∈ dropNullValue (List.insertionSort RLE (survivors recs)),
          r.value.isSome = true := by
      intro r hr
      have hr2 : r ∈ List.filter (fun r => r.value.isSome)
          (List.insertionSort RLE (survivors recs)) := hr
      simpa using (List.mem_filter.mp hr2).2
    have hperm := keyGroup_perm_validFor recs k
    constructor
    · unfold groupFirsts
      rw [List.filter_map, List.length_map]
      have hcong :
          List.filter
            ((fun r => decide (r.iso3 = k)) ∘
              mkRow (dropNullValue (List.insertionSort RLE (survivors recs))))
            (groupKeys (dropNullValue (List.insertionSort RLE (survivors recs))))
          = List.filter (fun k2 => decide (k2 = k))
            (groupKeys (dropNullValue (List.insertionSort RLE (survivors recs)))) :=
        List.filter_congr fun k2 _ => rfl
      rw [hcong, length_filter_eq_key _ (groupKeys_nodup _) k]
      have hiff :
          k ∈ groupKeys (dropNullValue (List.insertionSort RLE (survivors recs)))
            ↔ validFor recs k ≠ [] := by
        rw [mem_groupKeys_iff]
        constructor
        · intro h1 h2
          rw [h2] at hperm
          exact h1 hperm.eq_nil
        · intro h1 h2
          rw [h2] at hperm
          exact h1 hperm.symm.eq_nil
      by_cases hv : validFor recs k = [] <;> simp [hv, hiff]
    · intro row hrow hkrow
      unfold groupFirsts at hrow
      rw [List.mem_map] at hrow
      obtain ⟨k2, hk2, rfl⟩ := hrow
      have hk2k : k2 = k := hkrow
      subst hk2k
      have hne : keyGroup (dropNullValue (List.insertionSort RLE (survivors recs))) k2 ≠ [] :=
        (mem_groupKeys_iff _ k2).mp hk2
      obtain ⟨h, tl, hg⟩ :
          ∃ h tl, keyGroup (dropNullValue (List.insertionSort RLE (survivors recs))) k2
            = h :: tl := by
        cases hgk : keyGroup (dropNullValue (List.insertionSort RLE (survivors recs))) k2 with
        | nil => exact absurd hgk hne
        | cons h tl => exact ⟨h, tl, rfl⟩
      have hmem_g : h ∈ keyGroup (dropNullValue (List.insertionSort RLE (survivors recs))) k2 := by
        rw [hg]
        exact List.mem_cons_self _ _
      have hmem_kept : h ∈ dropNullValue (List.insertionSort RLE (survivors recs)) :=
        List.mem_of_mem_filter hmem_g
      have hv : h.value.isSome = true := hkeptsome h hmem_kept
      have hrw : mkRow (dropNullValue (List.insertionSort RLE (survivors recs))) k2
          = ⟨k2, h.year, h.value⟩ :=
        mkRow_spec _ k2 h tl hg hkeptpair hv
      have hmax := keyGroup_head_max _ k2 h tl hg hkeptpair
      refine ⟨?_, ?_, ?_⟩
      · rw [hrw]
        exact hv
      · rw [hrw]
        have hhk : h.iso3 = k2 := keyGroup_keys _ k2 h hmem_g
        have heq : (⟨k2, h.year, h.value⟩ : ObsRow) = h := by
          cases h with
          | mk i y v => simp_all
        rw [heq]
        exact hperm.mem_iff.mp hmem_g
      · intro r hrval
        have hrg : r ∈ keyGroup (dropNullValue (List.insertionSort RLE (survivors recs))) k2 :=
          hperm.mem_iff.mpr hrval
        have := hmax r hrg
        rw [hrw]
        exact this

/-- The three example series of the C1 claim, interleaved: E1 with years
2019 (null), 2020 (5.0), 2021 (null); E2 with 2018 (3.0), 2022 (null); E3
with 2020 (null) only. -/
def recsW1 : List (Option ObsRec) :=
  [some ⟨some "E1", some 2019, none⟩,
   some ⟨some "E1", some 2020, some 5⟩,
   some ⟨some "E1", some 2021, none⟩,
   some ⟨some "E2", some 2018, some 3⟩,
   some ⟨some "E2", some 2022, none⟩,
   some ⟨some "E3", some 2020, none⟩]

/-- The reduced frame on `recsW1`: E1 reduces to (2020, 5.0), E2 to
(2018, 3.0), E3 has no row. -/
def outW1 : List ObsRow :=
  [⟨"E1", some 2020, some 5⟩, ⟨"E2", some 2018, some 3⟩]

theorem C1_series_reducer_latest_inst :
    (((outW1.filter fun r => decide (r.iso3 = "E1")).length
        = if validFor recsW1 "E1" = [] then 0 else 1)
      ∧ ∀ row ∈ outW1, row.iso3 = "E1" →
          row.value.isSome = true
          ∧ row ∈ validFor recsW1 "E1"
          ∧ ∀ r ∈ validFor recsW1 "E1", YGE row.year r.year)
    ∧ ((outW1.filter fun r => decide (r.iso3 = "E3")).length
        = if validFor recsW1 "E3" = [] then 0 else 1)
    ∧ fetch_indicator_reduce recsW1 = .ok outW1 :=
  ⟨C1_series_reducer_latest recsW1 outW1 (by rfl) "E1",
   (C1_series_reducer_latest recsW1 outW1 (by rfl) "E3").1,
   by rfl⟩

/-- C9.  The Series Reducer discards every raw record that is null or whose
entity key (`countryiso3code`) is missing, null or empty before reduction:
every surviving frame row, and every row of the reduced output, carries a
non-empty entity key. -/
theorem C9_empty_key_discarded (recs : List (Option ObsRec)) (out : List ObsRow)
    (hout : fetch_indicator_reduce recs = .ok out) :
    (∀ r ∈ survivors recs, r.iso3 ≠ "")
    ∧ ∀ row ∈ out, row.iso3 ≠ "" := by
  have hsurv : ∀ r ∈ survivors recs, r.iso3 ≠ "" := by
    intro r hr
    unfold survivors at hr
    rw [List.mem_filterMap] at hr
    obtain ⟨a, _, ha⟩ := hr
    cases a with
    | none => exact absurd ha (by simp)
    | some o =>
      dsimp only at ha
      cases hc : o.countryiso3code with
      | none =>
        rw [hc] at ha
        exact absurd ha (by simp)
      | some s =>
        rw [hc] at ha
        dsimp only at ha
        by_cases hs : s = ""
        · rw [if_pos hs] at ha
          exact absurd ha (by simp)
        · rw [if_neg hs] at ha
          simp only [Option.some.injEq] at ha
          subst ha
          simpa [toRow, hc] using hs
  refine ⟨hsurv, ?_⟩
  simp only [fetch_indicator_reduce] at hout
  by_cases hemp : (survivors recs).isEmpty
  · rw [if_pos hemp] at hout
    exact absurd hout (by simp)
  · rw [if_neg hemp] at hout
    simp only [Except.ok.injEq] at hout
    subst hout
    intro row hrow
    unfold groupFirsts at hrow
    rw [List.mem_map] at hrow
    obtain ⟨k2, hk2, rfl⟩ := hrow
    have hne : keyGroup (dropNullValue (List.insertionSort RLE (survivors recs))) k2 ≠ [] :=
      (mem_groupKeys_iff _ k2).mp hk2
    rcases List.exists_mem_of_ne_nil _ hne with ⟨r, hr⟩
    have hrk : r.iso3 = k2 := keyGroup_keys _ k2 r hr
    have hrkept : r ∈ dropNullValue (List.insertionSort RLE (survivors recs)) :=
      List.mem_of_mem_filter hr
    have hrsort : r ∈ List.insertionSort RLE (survivors recs) :=
      List.mem_of_mem_filter hrkept
    have hrsurv : r ∈ survivors recs :=
      (List.perm_insertionSort RLE (survivors recs)).mem_iff.mp hrsort
    have : r.iso3 ≠ "" := hsurv r hrsurv
    rw [hrk] at this
    exact this

theorem C9_empty_key_discarded_inst :
    (∀ r ∈ survivors recsW1, r.iso3 ≠ "")
    ∧ ∀ row ∈ outW1, row.iso3 ≠ "" :=
  C9_empty_key_discarded recsW1 outW1 (by rfl)

/-- C10.  If no raw record survives the entity-key filter — in particular
when the very first page response already lacks the `[metadata, records]`
shape, so pagination returns no records at all — `fetch_indicator_latest`
raises (the empty DataFrame has no `iso3`/`year` columns, and
`sort_values` raises a `KeyError`) instead of returning an empty
per-entity mapping. -/
theorem C10_empty_survivors_error (recs : List (Option ObsRec))
    (pages : Nat → PageResp (Option ObsRec))
    (hsurv : survivors recs = []) (hbad : pages 1 = .bad) :
    fetch_indicator_reduce recs = .error ()
    ∧ fetch_indicator_latest pages 1 = some (.error ()) := by
  constructor
  · simp [fetch_indicator_reduce, hsurv]
  · have hloop : wbLoop true pages 1 1 [] 0 = some (.done []) := by
      simp [wbLoop, hbad]
    simp [fetch_indicator_latest, hloop, fetch_indicator_reduce, survivors]

theorem C10_empty_survivors_error_inst :
    fetch_indicator_reduce [some ⟨none, some 2020, some 5⟩] = .error ()
    ∧ fetch_indicator_latest (fun _ => PageResp.bad) 1 = some (.error ()) :=
  C10_empty_survivors_error [some ⟨none, some 2020, some 5⟩]
    (fun _ => PageResp.bad) (by rfl) (by rfl)

/-- A raw country record of the entity-reference endpoint:
`{id, name, region: {id, value}, incomeLevel: {value}}`, with the nested
objects flattened into the fields read by the code. -/
structure RawCountry where
  name : String
  id : String
  region_id : String
  region_value : String
  incomeLevel_value : String
deriving DecidableEq

/-- A row of the country catalog frame (app.py lines 31-37): columns
`name`, `iso3`, `region_id`, `region`, `income`. -/
structure Entity where
  name : String
  iso3 : String
  region_id : String
  region : String
  income : String
deriving DecidableEq

/-- The dict comprehension body of `fetch_countries` (lines 31-37). -/
def toEntity (r : RawCountry) : Entity :=
  ⟨r.name, r.id, r.region_id, r.region_value, r.incomeLevel_value⟩

/-- The mapping and filtering tail of `fetch_countries` (lines 31-38): map
every fetched record to a catalog row, then keep rows with
`region_id != "NA"` (`reset_index(drop=True)` only renumbers). -/
def countriesPost (rows : List RawCountry) : List Entity :=
  (rows.map toEntity).filter fun e => decide (e.region_id ≠ "NA")

/-- Function `fetch_countries` in full (app.py lines 16-38): paginate without the
envelope-shape guard, then map and filter. -/
def fetch_countries (pages : Nat → PageResp RawCountry) (fuel : Nat) :
    Option (Except Unit (List Entity)) :=
  match wbLoop false pages fuel 1 [] 0 with
  | none => none
  | some .error => some (.error ())
  | some (.done rows) => some (.ok (countriesPost rows))

/-- C6.  For every list of raw entity records, the catalog output by
`fetch_countries` contains no entity whose `region_id` equals the
non-substantive sentinel `"NA"`. -/
theorem C6_sentinel_filtered (rows : List RawCountry) :
    ∀ e ∈ countriesPost rows, e.region_id ≠ "NA" := by
  intro e he
  have h2 := (List.mem_filter.mp he).2
  simpa using h2

/-- Concrete catalog input for the C6 and C8 instances: one real country
and one `"NA"`-sentinel aggregate. -/
def rowsW6 : List RawCountry :=
  [⟨"Aland", "ABC", "R1", "Region1", "High"⟩,
   ⟨"World", "WLD", "NA", "Aggregates", ""⟩]

theorem C6_sentinel_filtered_inst :
    (⟨"Aland", "ABC", "R1", "Region1", "High"⟩ : Entity).region_id ≠ "NA" :=
  C6_sentinel_filtered rowsW6 ⟨"Aland", "ABC", "R1", "Region1", "High"⟩ (by decide)

/-- C8 counterexample input: the same raw record twice. -/
def rowsC8 : List RawCountry :=
  [⟨"Aland", "ABC", "R1", "Region1", "High"⟩,
   ⟨"Aland", "ABC", "R1", "Region1", "High"⟩]

/-- C8 counterexample.  `fetch_countries` performs no deduplication: raw
records sharing a key pass through one-to-one, so an input with duplicate
keys yields a catalog with duplicate keys. -/
theorem C8_duplicate_keys_preserved :
    ¬ ((countriesPost rowsC8).map fun e => e.iso3).Nodup := by decide

/-- C8 (amended).  The catalog has no duplicate entity keys provided the
raw input records have pairwise-distinct keys (the stated assumption of the spec); the code itself never deduplicates, so duplicate raw keys
survive (see the counterexample). -/
theorem C8_nodup_keys_of_nodup_input (rows : List RawCountry)
    (h : (rows.map fun r => r.id).Nodup) :
    ((countriesPost rows).map fun e => e.iso3).Nodup := by
  unfold countriesPost
  have hsub : ((rows.map toEntity).filter fun e => decide (e.region_id ≠ "NA")).Sublist
      (rows.map toEntity) := List.filter_sublist _
  have hsub2 := List.Sublist.map (fun e => e.iso3) hsub
  have hmm : ((rows.map toEntity).map fun e => e.iso3) = rows.map fun r => r.id := by
    rw [List.map_map]
    rfl
  rw [hmm] at hsub2
  exact List.Nodup.sublist hsub2 h

theorem C8_nodup_keys_of_nodup_input_inst :
    ((countriesPost rowsW6).map fun e => e.iso3).Nodup :=
  C8_nodup_keys_of_nodup_input rowsW6 (by decide)

/-- A row of the final joined frame of `build_dataset` (app.py lines
68-71): the catalog columns followed by the reduced-series columns, the
latter nullable (NaN-filled when no observation matched). -/
structure JoinedRow where
  name : String
  iso3 : String
  region_id : String
  region : String
  income : String
  year : Option Int
  value : Option ℚ
deriving DecidableEq

/-- Left merge `c.merge(v, on="iso3", how="left")` (app.py line 71): for each catalog
row in order, one joined row per matching reduced row (in their order), or
a single row with null `year`/`value` when none matches. -/
def leftMerge (c : List Entity) (v : List ObsRow) : List JoinedRow :=
  c.flatMap fun e =>
    let ms := v.filter fun r => decide (r.iso3 = e.iso3)
    if ms.isEmpty then [⟨e.name, e.iso3, e.region_id, e.region, e.income, none, none⟩]
    else ms.map fun r => ⟨e.name, e.iso3, e.region_id, e.region, e.income, r.year, r.value⟩

theorem find?_eq_head?_filter (p : α → Bool) (l : List α) :
    l.find? p = (l.filter p).head? := by
  induction l with
  | nil => rfl
  | cons a t ih =>
    by_cases hpa : p a = true
    · rw [List.find?_cons_of_pos _ hpa, List.filter_cons, if_pos hpa]
      rfl
    · rw [List.find?_cons_of_neg _ (by simpa using hpa), List.filter_cons,
        if_neg (by simpa using hpa), ih]

theorem filter_key_len_le_one (v : List ObsRow)
    (hv : (v.map fun r => r.iso3).Nodup) (k : String) :
    (v.filter fun r => decide (r.iso3 = k)).length ≤ 1 := by
  induction v with
  | nil => simp
  | cons r t ih =>
    rw [List.map_cons, List.nodup_cons] at hv
    rw [List.filter_cons]
    by_cases hrk : r.iso3 = k
    · rw [if_pos (by simpa using hrk)]
      have hnil : t.filter (fun x => decide (x.iso3 = k)) = [] := by
        rw [List.filter_eq_nil_iff]
        intro x hx
        simp only [decide_eq_true_eq]
        intro hxk
        exact hv.1 (List.mem_map.mpr ⟨x, hx, by rw [hxk, hrk]⟩)
      simp [hnil]
    · rw [if_neg (by simpa using hrk)]
      exact ih hv.2

theorem leftMerge_eq_map (v : List ObsRow)
    (hv : (v.map fun r => r.iso3).Nodup) :
    ∀ c, leftMerge c v = c.map fun e =>
      match v.find? fun r => decide (r.iso3 = e.iso3) with
      | some r => ⟨e.name, e.iso3, e.region_id, e.region, e.income, r.year, r.value⟩
      | none => ⟨e.name, e.iso3, e.region_id, e.region, e.income, none, none⟩ := by
  intro c
  induction c with
  | nil => rfl
  | cons e c ih =>
    unfold leftMerge at ih ⊢
    rw [List.flatMap_cons, List.map_cons, ih]
    congr 1
    have hfind := find?_eq_head?_filter (fun r => decide (r.iso3 = e.iso3)) v
    cases hms : (v.filter fun r => decide (r.iso3 = e.iso3)) with
    | nil =>
      rw [hms] at hfind
      simp [hms, hfind]
    | cons r rs =>
      have hlen := filter_key_len_le_one v hv e.iso3
      rw [hms] at hlen
      have hrs : rs = [] := by
        simp only [List.length_cons] at hlen
        exact List.length_eq_zero.mp (by omega)
      subst hrs
      rw [hms] at hfind
      simp [hms, hfind]

/-- C5.  For every catalog and every reduced series with at most one row
per entity key (pairwise-distinct keys), the left merge of `build_dataset`
produces exactly one output row per catalog entity — `|catalog|` rows in
total — with the catalog fields preserved, the period and value of the
matching reduced row when one exists, and null period and value otherwise. -/
theorem C5_left_join_total (c : List Entity) (v : List ObsRow)
    (hv : (v.map fun r => r.iso3).Nodup) :
    (leftMerge c v).length = c.length
    ∧ leftMerge c v = c.map fun e =>
        match v.find? fun r => decide (r.iso3 = e.iso3) with
        | some r => ⟨e.name, e.iso3, e.region_id, e.region, e.income, r.year, r.value⟩
        | none => ⟨e.name, e.iso3, e.region_id, e.region, e.income, none, none⟩ := by
  have hmap := leftMerge_eq_map v hv c
  exact ⟨by rw [hmap, List.length_map], hmap⟩

/-- Concrete catalog for the C5 instance: `ABC` has a reduced row, `XYZ`
does not. -/
def catW5 : List Entity :=
  [⟨"Aland", "ABC", "R1", "Region1", "High"⟩,
   ⟨"Xland", "XYZ", "R2", "Region2", "Low"⟩]

/-- Concrete reduced series for the C5 instance. -/
def redW5 : List ObsRow := [⟨"ABC", some 2021, some 100⟩]

theorem C5_left_join_total_inst :
    (leftMerge catW5 redW5).length = catW5.length
    ∧ leftMerge catW5 redW5 = catW5.map fun e =>
        match redW5.find? fun r => decide (r.iso3 = e.iso3) with
        | some r => ⟨e.name, e.iso3, e.region_id, e.region, e.income, r.year, r.value⟩
        | none => ⟨e.name, e.iso3, e.region_id, e.region, e.income, none, none⟩ :=
  C5_left_join_total catW5 redW5 (by decide)

/-- A cache entry: request signature, stored payload, fetch timestamp. -/
structure CacheEntry (σ π : Type) where
  sig : σ
  payload : π
  fetched_at : Nat
deriving DecidableEq

/-- The state of the Result Cache: the entries it exclusively owns. -/
structure Cache (σ π : Type) where
  entries : List (CacheEntry σ π)
deriving DecidableEq

/-- Modelled from the spec: the Result Cache behind `@st.cache_data(ttl=24*3600)`
(app.py lines 17 and 40) is implemented by the external streamlit library,
not by code in this repository, so `get_or_load` is modelled from spec
§4.5 and §3: if a valid entry exists for the signature (valid until
`now - fetched_at > ttl`), return its payload without invoking the loader;
otherwise invoke the loader, store the result with the current timestamp,
and return it.  The returned Bool records whether the loader was invoked. -/
def getOrLoad [DecidableEq σ] (c : Cache σ π) (sig : σ) (ttl : Nat) (now : Nat)
    (loader : Unit → π) : π × Cache σ π × Bool :=
  match c.entries.find? fun e => decide (e.sig = sig) with
  | some e =>
    if now - e.fetched_at ≤ ttl then (e.payload, c, false)
    else
      (loader (), ⟨⟨sig, loader (), now⟩ ::
        c.entries.filter fun e2 => decide (e2.sig ≠ sig)⟩, true)
  | none =>
    (loader (), ⟨⟨sig, loader (), now⟩ :: c.entries⟩, true)

/-- C7.  Starting from a cache with no entry for `sig`: the first call at
time `t1` invokes the loader and stores its result; a second call at
`t2` with `t2 - t1 ≤ ttl` returns the identical stored payload without
invoking the loader and leaves the cache unchanged; a second call with
`t2 - t1 > ttl` invokes its loader again and stores the fresh result with
timestamp `t2`. -/
theorem C7_cache_freshness [DecidableEq σ] (c0 : Cache σ π) (sig : σ)
    (ttl t1 t2 : Nat) (loader1 loader2 : Unit → π)
    (h0 : c0.entries.find? (fun e => decide (e.sig = sig)) = none) :
    (getOrLoad c0 sig ttl t1 loader1).1 = loader1 ()
    ∧ (getOrLoad c0 sig ttl t1 loader1).2.2 = true
    ∧ (t2 - t1 ≤ ttl →
        getOrLoad (getOrLoad c0 sig ttl t1 loader1).2.1 sig ttl t2 loader2
          = (loader1 (), (getOrLoad c0 sig ttl t1 loader1).2.1, false))
    ∧ (ttl < t2 - t1 →
        (getOrLoad (getOrLoad c0 sig ttl t1 loader1).2.1 sig ttl t2 loader2).1
            = loader2 ()
        ∧ (getOrLoad (getOrLoad c0 sig ttl t1 loader1).2.1 sig ttl t2 loader2).2.2
            = true
        ∧ (getOrLoad (getOrLoad c0 sig ttl t1 loader1).2.1 sig ttl t2
              loader2).2.1.entries.find? (fun e => decide (e.sig = sig))
            = some ⟨sig, loader2 (), t2⟩) := by
  have hc1 : (getOrLoad c0 sig ttl t1 loader1).2.1
      = ⟨⟨sig, loader1 (), t1⟩ :: c0.entries⟩ := by
    simp [getOrLoad, h0]
  have hfind1 : (⟨sig, loader1 (), t1⟩ :: c0.entries).find?
      (fun e => decide (e.sig = sig)) = some ⟨sig, loader1 (), t1⟩ := by
    rw [List.find?_cons_of_pos _ (by simp)]
  refine ⟨by simp [getOrLoad, h0], by simp [getOrLoad, h0], ?_, ?_⟩
  · intro hfresh
    rw [hc1]
    simp [getOrLoad, List.find?_cons_of_pos, hfresh]
  · intro hstale
    rw [hc1]
    have hns : ¬ (t2 - t1 ≤ ttl) := by omega
    refine ⟨?_, ?_, ?_⟩
    · simp [getOrLoad, List.find?_cons_of_pos, hns]
    · simp [getOrLoad, List.find?_cons_of_pos, hns]
    · simp only [getOrLoad]
      rw [hfind1]
      simp only [hns, if_false]
      rw [List.find?_cons_of_pos _ (by simp)]

theorem C7_cache_freshness_inst :
    (getOrLoad (⟨[]⟩ : Cache Nat Nat) 0 10 0 (fun _ => 42)).1 = 42
    ∧ (getOrLoad (⟨[]⟩ : Cache Nat Nat) 0 10 0 (fun _ => 42)).2.2 = true
    ∧ (5 - 0 ≤ 10 →
        getOrLoad (getOrLoad (⟨[]⟩ : Cache Nat Nat) 0 10 0 (fun _ => 42)).2.1
            0 10 5 (fun _ => 43)
          = (42, (getOrLoad (⟨[]⟩ : Cache Nat Nat) 0 10 0 (fun _ => 42)).2.1, false))
    ∧ (10 < 5 - 0 →
        (getOrLoad (getOrLoad (⟨[]⟩ : Cache Nat Nat) 0 10 0 (fun _ => 42)).2.1
            0 10 5 (fun _ => 43)).1 = 43
        ∧ (getOrLoad (getOrLoad (⟨[]⟩ : Cache Nat Nat) 0 10 0 (fun _ => 42)).2.1
            0 10 5 (fun _ => 43)).2.2 = true
        ∧ (getOrLoad (getOrLoad (⟨[]⟩ : Cache Nat Nat) 0 10 0 (fun _ => 42)).2.1
            0 10 5 (fun _ => 43)).2.1.entries.find? (fun e => decide (e.sig = 0))
          = some ⟨0, 43, 5⟩) :=
  C7_cache_freshness (⟨[]⟩ : Cache Nat Nat) 0 10 0 5 (fun _ => 42) (fun _ => 43)
    (by rfl)
